import Mathlib

set_option maxRecDepth 8192

/-!
Verification of the bulk asset upload pipeline of the `wrangler pages publish`
command (`pages/index.tsx`): directory walk and content indexing, dedup
filtering, bucket planning, upload retry with linear backoff, the upsert-hashes
finalizer, and the returned path-to-fingerprint manifest.

The embedding is shallow: the TypeScript `upload` function and its helpers are
translated into executable Lean definitions.  External collaborators (the
blake3 hash, the mime-type lookup, the network) are parameters; machine
behaviour of Node primitives (`fs.promises.stat` following symbolic links,
`path.extname`, `Buffer.toString("base64")`, JS `Map.set`) is modelled
explicitly where the code depends on it.
-/

/-- One entry of the walker's `fileMap` (`FileContainer` in the source):
base64 content, mime type, byte size and the 32-hex-character fingerprint. -/
structure FileContainer where
  content : String
  contentType : String
  sizeInBytes : Nat
  hash : String
deriving DecidableEq

/-- The filesystem seen by the walker.  A symbolic link carries its fully
resolved target (`none` when dangling); targets are never themselves links,
mirroring what `fs.promises.stat` ultimately resolves to. -/
inductive FSEntry where
  | file (name : String) (content : List Nat)
  | dir (name : String) (entries : List FSEntry)
  | symlink (name : String) (target : Option FSEntry)

/-- Fatal indexing errors thrown inside `walk`: an oversized file (the thrown
`Error` names the computed path and the byte size), or `stat` rejecting on a
dangling symbolic link. -/
inductive WalkError where
  | tooLarge (name : String) (size : Nat)
  | brokenLink (path : List String)
deriving DecidableEq

/-- The walker's `fileMap`, a JS `Map` kept in insertion order. -/
abbrev FileMap := List (String × FileContainer)

/-- JS `Map.set`: replace the value of an existing key in place, otherwise
append the new entry at the end. -/
def mapSet (fm : FileMap) (k : String) (v : FileContainer) : FileMap :=
  if fm.any (fun p => p.1 == k) then
    fm.map (fun p => if p.1 == k then (k, v) else p)
  else fm ++ [(k, v)]

/-- The standard base64 alphabet. -/
def base64Chars : List Char :=
  "ABCDEFGHIJKLMNOPQRSTUVWXYZabcdefghijklmnopqrstuvwxyz0123456789+/".toList

def b64char (n : Nat) : Char := base64Chars.getD n 'A'

/-- `Buffer.toString("base64")`: standard base64 with `=` padding, bytes taken
mod 256. -/
def base64Encode : List Nat → String
  | [] => ""
  | [a] =>
    let a := a % 256
    String.mk [b64char (a / 4), b64char (a % 4 * 16), '=', '=']
  | [a, b] =>
    let a := a % 256
    let b := b % 256
    String.mk [b64char (a / 4), b64char (a % 4 * 16 + b / 16), b64char (b % 16 * 4), '=']
  | a :: b :: c :: rest =>
    let a := a % 256
    let b := b % 256
    let c := c % 256
    String.mk [b64char (a / 4), b64char (a % 4 * 16 + b / 16),
      b64char (b % 16 * 4 + c / 64), b64char (c % 64)] ++ base64Encode rest

/-- Node `path.basename` for POSIX-style paths as produced by the walker: the
suffix after the last separator. -/
def basename (s : String) : String :=
  String.mk ((s.data.reverse.takeWhile (fun c => c ≠ '/')).reverse)

/-- Index of the last `.` in a character list, if any. -/
def lastDotIdx (cs : List Char) : Option Nat :=
  ((cs.enum.filter (fun p => p.2 = '.')).map (fun p => p.1)).getLast?

/-- Node `path.extname` on a basename: the substring from the last `.` on,
empty when there is no dot or the only dot is the leading character. -/
def extname (b : String) : String :=
  match lastDotIdx b.data with
  | some i => if i = 0 then "" else String.mk (b.data.drop i)
  | none => ""

/-- The string hashed to fingerprint a file: the base64 encoding of its raw
bytes concatenated with its extension (`base64Content + extension`). -/
def hashInput (raw : List Nat) (ext : String) : String := base64Encode raw ++ ext

/-- `hash(base64Content + extension).toString("hex").slice(0, 32)`.
`blakeHex` is the external blake3 hash composed with hex rendering. -/
def fingerprint (blakeHex : String → String) (raw : List Nat) (ext : String) : String :=
  (blakeHex (hashInput raw ext)).take 32

/-- `IGNORE_LIST` from the source. -/
def IGNORE_LIST : List String :=
  ["_worker.js", "_redirects", "_headers", ".DS_Store", "node_modules", ".git"]

def entryName : FSEntry → String
  | .file n _ => n
  | .dir n _ => n
  | .symlink n _ => n

/-- `fs.promises.stat`: follows symbolic links, so the entry it describes is
the resolved target; it rejects (`none`) on a dangling link. -/
def resolveStat : FSEntry → Option FSEntry
  | .symlink _ t => t
  | e => some e

/-- `Stats.isSymbolicLink()` on a `Stats` obtained from `fs.promises.stat`:
since `stat` follows links, the resolved entry is never reported as a
symbolic link (detecting links would require `lstat`). -/
def statIsSymbolicLink (_resolved : FSEntry) : Bool := false

def resolvedFileContent : FSEntry → List Nat
  | .file _ c => c
  | _ => []

deriving instance DecidableEq for Except

/-- The per-file body of the walker: compute the map key `name` from the
joined `filepath` (`filepath.split(sep).slice(1).join("/")` at positive depth,
the bare entry name at depth 0), base64-encode the content, take the
extension of `basename(name)` without its dot, enforce the 25 MiB ceiling,
and store the record under `name`. -/
def walkFileStep (mt : String → Option String) (bh : String → String)
    (fm : FileMap) (dirPath : List String) (depth : Nat)
    (fname : String) (content : List Nat) : Except WalkError FileMap :=
  let filepath := dirPath ++ [fname]
  let name := if depth == 0 then fname else String.intercalate "/" (filepath.drop 1)
  let base64Content := base64Encode content
  let extension := (extname (basename name)).drop 1
  if content.length > 25 * 1024 * 1024 then
    .error (.tooLarge name content.length)
  else
    .ok (mapSet fm name
      { content := base64Content
        contentType := (mt name).getD "application/octet-stream"
        sizeInBytes := content.length
        hash := (bh (base64Content ++ extension)).take 32 })

/-- The recursive `walk` of the source, sequentialized (the source walks a
directory's entries with `Promise.all`; the resulting map does not depend on
the completion order because keys are distinct paths).  `mt` is the external
`mime.getType`, `bh` the external blake3-hex hash.  `dirPath` is the current
directory path as its list of segments (the source's `dir` string split on
the path separator), `depth` the recursion depth.

The source stats each entry, then skips ignore-listed names, then checks
`filestat.isSymbolicLink()`.  Because `stat` follows symbolic links, that
check is `statIsSymbolicLink` — constantly false — so it is elided in this
rendering and link entries are processed as their resolved targets; a
dangling link makes `stat` reject before the ignore-list check, failing the
walk. -/
def walkEntries (mt : String → Option String) (bh : String → String) :
    FileMap → List String → Nat → List FSEntry → Except WalkError FileMap
  | fm, _, _, [] => .ok fm
  | _fm, dirPath, _depth, .symlink fname none :: _rest =>
    .error (.brokenLink (dirPath ++ [fname]))
  | fm, dirPath, depth, .dir fname sub :: rest =>
    if IGNORE_LIST.contains fname then walkEntries mt bh fm dirPath depth rest
    else
      match walkEntries mt bh fm (dirPath ++ [fname]) (depth + 1) sub with
      | .error err => .error err
      | .ok fm2 => walkEntries mt bh fm2 dirPath depth rest
  | fm, dirPath, depth, .symlink fname (some (.dir _ sub)) :: rest =>
    -- `stat` resolved the link to a directory; the walk descends through it
    -- under the link's own name.
    if IGNORE_LIST.contains fname then walkEntries mt bh fm dirPath depth rest
    else
      match walkEntries mt bh fm (dirPath ++ [fname]) (depth + 1) sub with
      | .error err => .error err
      | .ok fm2 => walkEntries mt bh fm2 dirPath depth rest
  | fm, dirPath, depth, .file fname content :: rest =>
    if IGNORE_LIST.contains fname then walkEntries mt bh fm dirPath depth rest
    else
      match walkFileStep mt bh fm dirPath depth fname content with
      | .error err => .error err
      | .ok fm2 => walkEntries mt bh fm2 dirPath depth rest
  | fm, dirPath, depth, .symlink fname (some tgt) :: rest =>
    -- `stat` resolved the link to a regular file; `readFile` reads through
    -- the link, and the record is keyed by the link's own name.
    if IGNORE_LIST.contains fname then walkEntries mt bh fm dirPath depth rest
    else
      match walkFileStep mt bh fm dirPath depth fname (resolvedFileContent tgt) with
      | .error err => .error err
      | .ok fm2 => walkEntries mt bh fm2 dirPath depth rest

/-- `walk(directory)`: the root directory path is given as its segment list. -/
def walk (mt : String → Option String) (bh : String → String)
    (rootPath : List String) (entries : List FSEntry) : Except WalkError FileMap :=
  walkEntries mt bh [] rootPath 0 entries

/-! ## Dedup resolver and batch planner -/

/-- The upload set: `files.filter((file) => missingHashes.includes(file.hash))`. -/
def uploadSet (missing : List String) (files : List FileContainer) : List FileContainer :=
  files.filter (fun f => missing.contains f.hash)

/-- Insertion step of the stable descending sort: the new file goes after
every earlier file of greater or equal size. -/
def insertBySize (f : FileContainer) : List FileContainer → List FileContainer
  | [] => [f]
  | g :: gs => if f.sizeInBytes ≤ g.sizeInBytes then g :: insertBySize f gs else f :: g :: gs

/-- `.sort((a, b) => b.sizeInBytes - a.sizeInBytes)`: JS `Array.prototype.sort`
is a stable sort; it is rendered as a stable insertion sort, descending by
`sizeInBytes`. -/
def sortFilesBySize : List FileContainer → List FileContainer
  | [] => []
  | f :: fs => insertBySize f (sortFilesBySize fs)

/-- A planner bucket: its files (pushed at the end) and the remaining byte
capacity, a JS number that the code lets go negative only when a fresh bucket
is seeded with a file larger than `MAX_BUCKET_SIZE`. -/
structure Bucket where
  files : List FileContainer
  remainingSize : Int
deriving DecidableEq

instance : Inhabited Bucket := ⟨⟨[], 0⟩⟩

/-- `bucket.files.push(file); bucket.remainingSize -= file.sizeInBytes`. -/
def addToBucket (b : Bucket) (f : FileContainer) : Bucket :=
  { files := b.files ++ [f], remainingSize := b.remainingSize - f.sizeInBytes }

/-- The candidate test of the inner scan:
`bucket.remainingSize >= file.sizeInBytes && bucket.files.length < MAX_BUCKET_FILE_COUNT`. -/
def bucketFits (maxCount : Nat) (b : Bucket) (f : FileContainer) : Bool :=
  decide ((f.sizeInBytes : Int) ≤ b.remainingSize) && decide (b.files.length < maxCount)

/-- The inner `for (let i = 0; i < buckets.length; i++)` scan: the first
bucket, starting at the rotating offset `(i + bucketOffset) % buckets.length`,
that fits the file. -/
def findSlot (maxCount : Nat) (bs : List Bucket) (off : Nat) (f : FileContainer) : Option Nat :=
  ((List.range bs.length).find?
      (fun i => bucketFits maxCount (bs.getD ((i + off) % bs.length) default) f)).map
    (fun i => (i + off) % bs.length)

/-- One iteration of the planner loop: place the file into the first fitting
bucket, or append a fresh bucket seeded with it. -/
def insertFile (maxSize : Int) (maxCount : Nat) (bs : List Bucket) (off : Nat)
    (f : FileContainer) : List Bucket :=
  match findSlot maxCount bs off f with
  | some idx => bs.set idx (addToBucket (bs.getD idx default) f)
  | none => bs ++ [{ files := [f], remainingSize := maxSize - f.sizeInBytes }]

/-- The planner's `for (const file of sortedFiles)` loop; `bucketOffset`
increments once per file whether or not the scan found a slot. -/
def packFiles (maxSize : Int) (maxCount : Nat) :
    List FileContainer → List Bucket → Nat → List Bucket
  | [], bs, _ => bs
  | f :: rest, bs, off => packFiles maxSize maxCount rest (insertFile maxSize maxCount bs off f) (off + 1)

/-- The pre-allocated empty buckets, one per upload stream
(`new Array(BULK_UPLOAD_CONCURRENCY).fill(null).map(...)`). -/
def initBuckets (conc : Nat) (maxSize : Int) : List Bucket :=
  List.replicate conc { files := [], remainingSize := maxSize }

/-- The whole batch planner.  The capacity constants come from
`./constants`, a module outside the provided sources, so they are
parameters here. -/
def planBuckets (maxSize : Int) (maxCount : Nat) (conc : Nat)
    (files : List FileContainer) : List Bucket :=
  packFiles maxSize maxCount files (initBuckets conc maxSize) 0

/-- Concatenation of the files of a bucket list. -/
def bucketsFiles : List Bucket → List FileContainer
  | [] => []
  | b :: bs => b.files ++ bucketsFiles bs

/-- `UploadPayloadFile` from `./types`: the JSON body entry built for each
file of a bucket. -/
structure UploadPayloadFile where
  key : String
  value : String
  contentType : String
  base64 : Bool
deriving DecidableEq

/-- `bucket.files.map((file) => ({ key: file.hash, value: file.content, ... }))`. -/
def bucketPayload (b : Bucket) : List UploadPayloadFile :=
  b.files.map (fun f => { key := f.hash, value := f.content, contentType := f.contentType, base64 := true })

/-- Invariant of a planner bucket: `remainingSize` is exactly the byte
ceiling minus the packed bytes, it is non-negative, and the file count is
within the ceiling. -/
def bucketInv (maxSize : Int) (maxCount : Nat) (b : Bucket) : Prop :=
  b.remainingSize = maxSize - ((b.files.map (fun f => f.sizeInBytes)).sum : Int)
  ∧ 0 ≤ b.remainingSize
  ∧ b.files.length ≤ maxCount

/-! ## Upload retry (`doUpload`) -/

/-- The error a failed network call carries; the only field the retry logic
inspects is `code`. -/
structure ErrInfo where
  code : Int
deriving DecidableEq

/-- Result of one `fetchResult("/pages/assets/upload", ...)` attempt. -/
inductive AttemptResult where
  | ok
  | err (e : ErrInfo)
deriving DecidableEq

def AttemptResult.isErr : AttemptResult → Bool
  | .ok => false
  | .err _ => true

/-- Whether a failure is the credential-expiry signal the code refreshes on. -/
def isExpiry : AttemptResult → Bool
  | .ok => false
  | .err e => e.code == 8000013

/-- What happens between a failed attempt and its retry: the
`setTimeout(resolve, attempts++ * 1000)` wait and whether the shared JWT was
re-fetched (`if (e.code === 8000013) jwt = await fetchJwt()`). -/
structure RetryEvent where
  waitMs : Nat
  refreshedJwt : Bool
deriving DecidableEq

/-- `doUpload` from the source.  `results n` is the outcome of the n-th
network attempt (the external collaborator).  `attempts` starts at 0; the
source retries while `attempts < MAX_UPLOAD_ATTEMPTS`, incrementing
`attempts` as it waits, which is rendered structurally by the `remaining`
allowance `MAX_UPLOAD_ATTEMPTS - attempts`.  Returns the retry events in
order and `some e` when retries are exhausted and the error `e` of the last
attempt propagates. -/
def doUploadAux (results : Nat → AttemptResult) :
    Nat → Nat → List RetryEvent × Option ErrInfo
  | 0, attempts =>
    match results attempts with
    | .ok => ([], none)
    | .err e => ([], some e)
  | rem + 1, attempts =>
    match results attempts with
    | .ok => ([], none)
    | .err e =>
      let rest := doUploadAux results rem (attempts + 1)
      ({ waitMs := attempts * 1000, refreshedJwt := e.code == 8000013 } :: rest.1, rest.2)

/-- A whole `doUpload()` call chain for one bucket. -/
def doUpload (results : Nat → AttemptResult) (maxAttempts : Nat) :
    List RetryEvent × Option ErrInfo :=
  doUploadAux results maxAttempts 0

/-! ## Finalizer (`doUpsertHashes`) -/

/-- Trace of one `doUpsertHashes()` call: how many `upsert-hashes` network
calls were made, whether the JWT was re-fetched before the second, the fixed
wait before the second, and the final outcome. -/
structure UpsertOutcome where
  calls : Nat
  refreshedJwt : Bool
  waitMs : Nat
  outcome : Except ErrInfo Unit
deriving DecidableEq

/-- `doUpsertHashes` from the source: one call; on failure wait a fixed
1000 ms, re-fetch the JWT when the error code is 8000013, and try exactly
once more, propagating the second outcome.  `results n` is the outcome of
the n-th `upsert-hashes` call. -/
def doUpsertHashes (results : Nat → Except ErrInfo Unit) : UpsertOutcome :=
  match results 0 with
  | .ok _ => { calls := 1, refreshedJwt := false, waitMs := 0, outcome := .ok () }
  | .error e => { calls := 2, refreshedJwt := e.code == 8000013, waitMs := 1000, outcome := results 1 }

def exceptIsErr (x : Except ErrInfo Unit) : Bool :=
  match x with
  | .error _ => true
  | .ok _ => false

/-! ## The upload pipeline -/

/-- Network calls visible in the sequential rendering of the pipeline. -/
inductive NetCall where
  | fetchJwt
  | checkMissing
  | uploadCall (bucket : Nat) (attempt : Nat)
  | upsert (attempt : Nat)
deriving DecidableEq

/-- The pipeline's fatal outcomes: a `walk` rejection, the 20,000-file
pre-flight `FatalError`, or the `FatalError` raised when a bucket exhausts
its upload retries. -/
inductive UploadError where
  | walkFailed (e : WalkError)
  | tooManyFiles
  | fatal (code : Int)
deriving DecidableEq

/-- `new FatalError("Failed to upload files...", error.code || 1)`: the JS
`||` falls back to 1 when `error.code` is 0 (falsy). -/
def fatalCode (e : ErrInfo) : Int :=
  if e.code == 0 then 1 else e.code

/-- External collaborators and platform constants of one `upload` run.  The
capacity and retry constants are imported by the source from `./constants`,
a module outside the provided sources, so they are parameters. -/
structure Env where
  mimeType : String → Option String
  blakeHex : String → String
  missing : List String
  uploadResult : Nat → Nat → AttemptResult
  upsertResult : Nat → Except ErrInfo Unit
  maxBucketSize : Int
  maxBucketFileCount : Nat
  concurrency : Nat
  maxAttempts : Nat

/-- Outcome of one `upload` run: the returned manifest or the fatal error,
the network calls in dispatch order, and whether the
"Failed to update file hashes" warning was logged. -/
structure RunResult where
  result : Except UploadError (List (String × String))
  netCalls : List NetCall
  upsertWarned : Bool
deriving DecidableEq

/-- The bucket upload loop, sequentialized: empty buckets are skipped
(`if (bucket.files.length === 0) continue`), each non-empty bucket runs its
`doUpload` chain, and the first bucket to exhaust its retries stops the run
with its error. -/
def runBucketsAux (results : Nat → Nat → AttemptResult) (maxAttempts : Nat) :
    List Bucket → Nat → List NetCall × Option ErrInfo
  | [], _ => ([], none)
  | b :: bs, i =>
    if b.files.length == 0 then runBucketsAux results maxAttempts bs (i + 1)
    else
      let r := doUpload (results i) maxAttempts
      let calls := (List.range (r.1.length + 1)).map (NetCall.uploadCall i)
      match r.2 with
      | none =>
        let rest := runBucketsAux results maxAttempts bs (i + 1)
        (calls ++ rest.1, rest.2)
      | some e => (calls, some e)

/-- The returned manifest:
`Object.fromEntries([...fileMap.entries()].map(([name, file]) => ["/" + name, file.hash]))`. -/
def manifestOf (fm : FileMap) : List (String × String) :=
  fm.map (fun p => ("/" ++ p.1, p.2.hash))

/-- Everything `upload` does after the walk: the 20,000-file pre-flight
check, then `fetchJwt`, the `check-missing` dedup call, filter + sort +
bucket planning, the bucket upload loop, the `upsert-hashes` finalizer whose
failure is only a warning, and the manifest built from the full `fileMap`. -/
def runUploadCore (env : Env) (wr : Except WalkError FileMap) : RunResult :=
  match wr with
  | .error e => { result := .error (.walkFailed e), netCalls := [], upsertWarned := false }
  | .ok fm =>
    if fm.length > 20000 then
      { result := .error .tooManyFiles, netCalls := [], upsertWarned := false }
    else
      let files := fm.map (fun p => p.2)
      let sorted := sortFilesBySize (uploadSet env.missing files)
      let plan := planBuckets env.maxBucketSize env.maxBucketFileCount env.concurrency sorted
      let bres := runBucketsAux env.uploadResult env.maxAttempts plan 0
      match bres.2 with
      | some e =>
        { result := .error (.fatal (fatalCode e))
          netCalls := [NetCall.fetchJwt, NetCall.checkMissing] ++ bres.1
          upsertWarned := false }
      | none =>
        let u := doUpsertHashes env.upsertResult
        { result := .ok (manifestOf fm)
          netCalls := [NetCall.fetchJwt, NetCall.checkMissing] ++ bres.1
              ++ (List.range u.calls).map NetCall.upsert
          upsertWarned := exceptIsErr u.outcome }

/-- One whole `upload({ directory, ... })` run. -/
def runUpload (env : Env) (rootPath : List String) (entries : List FSEntry) : RunResult :=
  runUploadCore env (walk env.mimeType env.blakeHex rootPath entries)

/-- Modelled from the spec: the Content Indexer contract that `logicalPath`
is the file's POSIX-style path relative to the root directory.  This twin of
`walkEntries` differs from it only in the key computation: `rel` is the
current directory's path relative to the root, and a file's key is
`rel ++ [fname]` joined with `/`.  It is the refinement target `walkEntries`
is compared against.  `root` is the root directory's single segment; it
appears only in the dangling-link error payload so that the two walks agree
on error values too. -/
def specWalkFileStep (mt : String → Option String) (bh : String → String)
    (fm : FileMap) (rel : List String)
    (fname : String) (content : List Nat) : Except WalkError FileMap :=
  let name := String.intercalate "/" (rel ++ [fname])
  let base64Content := base64Encode content
  let extension := (extname (basename name)).drop 1
  if content.length > 25 * 1024 * 1024 then
    .error (.tooLarge name content.length)
  else
    .ok (mapSet fm name
      { content := base64Content
        contentType := (mt name).getD "application/octet-stream"
        sizeInBytes := content.length
        hash := (bh (base64Content ++ extension)).take 32 })

/-- The spec-side walk itself; see `specWalkFileStep`. -/
def specWalkEntries (mt : String → Option String) (bh : String → String) (root : String) :
    FileMap → List String → List FSEntry → Except WalkError FileMap
  | fm, _, [] => .ok fm
  | _fm, rel, .symlink fname none :: _rest =>
    .error (.brokenLink (root :: rel ++ [fname]))
  | fm, rel, .dir fname sub :: rest =>
    if IGNORE_LIST.contains fname then specWalkEntries mt bh root fm rel rest
    else
      match specWalkEntries mt bh root fm (rel ++ [fname]) sub with
      | .error err => .error err
      | .ok fm2 => specWalkEntries mt bh root fm2 rel rest
  | fm, rel, .symlink fname (some (.dir _ sub)) :: rest =>
    if IGNORE_LIST.contains fname then specWalkEntries mt bh root fm rel rest
    else
      match specWalkEntries mt bh root fm (rel ++ [fname]) sub with
      | .error err => .error err
      | .ok fm2 => specWalkEntries mt bh root fm2 rel rest
  | fm, rel, .file fname content :: rest =>
    if IGNORE_LIST.contains fname then specWalkEntries mt bh root fm rel rest
    else
      match specWalkFileStep mt bh fm rel fname content with
      | .error err => .error err
      | .ok fm2 => specWalkEntries mt bh root fm2 rel rest
  | fm, rel, .symlink fname (some tgt) :: rest =>
    if IGNORE_LIST.contains fname then specWalkEntries mt bh root fm rel rest
    else
      match specWalkFileStep mt bh fm rel fname (resolvedFileContent tgt) with
      | .error err => .error err
      | .ok fm2 => specWalkEntries mt bh root fm2 rel rest

/-! ## Shared witness inputs -/

/-- A tiny concrete file record used by witnesses. -/
def fcW : FileContainer :=
  { content := "YQ==", contentType := "text/plain", sizeInBytes := 1, hash := "h1" }

/-- A concrete environment used by witnesses; the capacity constants carry
the spec-described roles (per-file maximum below the batch byte ceiling). -/
def envW : Env :=
  { mimeType := fun _ => none
    blakeHex := fun s => s
    missing := []
    uploadResult := fun _ _ => .ok
    upsertResult := fun _ => .ok ()
    maxBucketSize := 52428800
    maxBucketFileCount := 5000
    concurrency := 3
    maxAttempts := 5 }

theorem insertBySize_perm (f : FileContainer) (l : List FileContainer) :
    List.Perm (insertBySize f l) (f :: l) := by
  induction l with
  | nil => exact List.Perm.refl _
  | cons g gs ih =>
    simp only [insertBySize]
    split
    · exact ((ih.cons g).trans (List.Perm.swap f g gs))
    · exact List.Perm.refl _

theorem sortFilesBySize_perm (l : List FileContainer) :
    List.Perm (sortFilesBySize l) l := by
  induction l with
  | nil => exact List.Perm.refl _
  | cons f fs ih => exact (insertBySize_perm f (sortFilesBySize fs)).trans (ih.cons f)

/-! ## C3: the fingerprint -/

/-- C3: a file's fingerprint is the hex digest of the hash of the base64
encoding of its raw bytes concatenated with its extension, truncated to 32
characters; it is a pure function of `(rawBytes, extension)` — recomputation
and identical inputs give identical fingerprints — and different extensions
on the same bytes give different hash inputs. -/
theorem claim_C3_fingerprint (blakeHex : String → String) (raw : List Nat) (ext : String) :
    fingerprint blakeHex raw ext = (blakeHex (base64Encode raw ++ ext)).take 32
    ∧ (∀ raw2 ext2, raw2 = raw → ext2 = ext →
        fingerprint blakeHex raw2 ext2 = fingerprint blakeHex raw ext)
    ∧ (∀ ext2, ext2 ≠ ext → hashInput raw ext2 ≠ hashInput raw ext) := by
  refine ⟨rfl, fun raw2 ext2 h1 h2 => by rw [h1, h2], fun ext2 hne heq => hne ?_⟩
  have hd := congrArg String.data heq
  simp only [hashInput, String.data_append] at hd
  have hdd := List.append_cancel_left hd
  cases ext2
  cases ext
  exact congrArg String.mk hdd

theorem claim_C3_fingerprint_witness :
    "png" ≠ "txt" ∧ hashInput [104, 105] "png" ≠ hashInput [104, 105] "txt" :=
  ⟨by decide, (claim_C3_fingerprint (fun s => s) [104, 105] "txt").2.2 "png" (by decide)⟩

/-! ## C2: the manifest -/

/-- C2: when the run returns a manifest, it is exactly the full `fileMap`
with every `logicalPath` prefixed by `/` and mapped to its fingerprint —
every indexed file is covered (membership in the missing set is irrelevant:
the manifest is built from `fileMap`, not from the upload set) and there are
no other entries. -/
theorem claim_C2_manifest (env : Env) (fm : FileMap) (m : List (String × String))
    (tr : List NetCall) (w : Bool)
    (hrun : runUploadCore env (.ok fm) = { result := .ok m, netCalls := tr, upsertWarned := w }) :
    m = manifestOf fm
    ∧ ∀ p h, ((p, h) ∈ m ↔ ∃ n f, (n, f) ∈ fm ∧ p = "/" ++ n ∧ h = f.hash) := by
  have hm : m = manifestOf fm := by
    simp only [runUploadCore] at hrun
    split at hrun
    · simp only [RunResult.mk.injEq] at hrun
      exact absurd hrun.1 (by simp)
    · split at hrun
      · simp only [RunResult.mk.injEq] at hrun
        exact absurd hrun.1 (by simp)
      · simp only [RunResult.mk.injEq, Except.ok.injEq] at hrun
        exact hrun.1.symm
  subst hm
  refine ⟨rfl, fun p h => ?_⟩
  constructor
  · intro hmem
    simp only [manifestOf, List.mem_map] at hmem
    obtain ⟨q, hq, he⟩ := hmem
    rw [Prod.ext_iff] at he
    exact ⟨q.1, q.2, hq, he.1.symm, he.2.symm⟩
  · rintro ⟨n, f, hnf, rfl, rfl⟩
    simp only [manifestOf, List.mem_map]
    exact ⟨(n, f), hnf, rfl⟩

theorem claim_C2_manifest_witness :
    runUploadCore envW (.ok [("a.txt", fcW)])
        = { result := .ok [("/a.txt", "h1")],
            netCalls := [NetCall.fetchJwt, NetCall.checkMissing, NetCall.upsert 0],
            upsertWarned := false }
    ∧ (("/a.txt", "h1") ∈ [("/a.txt", "h1")] ↔
        ∃ n f, (n, f) ∈ [("a.txt", fcW)] ∧ "/a.txt" = "/" ++ n ∧ "h1" = f.hash) :=
  ⟨by decide,
    (claim_C2_manifest envW [("a.txt", fcW)] [("/a.txt", "h1")]
      [NetCall.fetchJwt, NetCall.checkMissing, NetCall.upsert 0] false (by decide)).2
      "/a.txt" "h1"⟩

/-! ## C10: dedup filtering is per fingerprint -/

/-- C10: a record is in the upload set iff its fingerprint occurs in the
missing set, so two records with the same fingerprint are either both in or
both out; batch payload keys are exactly the files' fingerprints (so two
same-fingerprint files in one batch yield two payload entries with the same
key). -/
theorem claim_C10_dedup (missing : List String) (files : List FileContainer) :
    (∀ f, f ∈ sortFilesBySize (uploadSet missing files)
        ↔ f ∈ files ∧ missing.contains f.hash = true)
    ∧ (∀ f1 f2, f1 ∈ files → f2 ∈ files → f1.hash = f2.hash →
        (f1 ∈ sortFilesBySize (uploadSet missing files)
          ↔ f2 ∈ sortFilesBySize (uploadSet missing files)))
    ∧ (∀ b : Bucket, (bucketPayload b).map (fun p => p.key) = b.files.map (fun f => f.hash)) := by
  have hmem : ∀ f, f ∈ sortFilesBySize (uploadSet missing files)
      ↔ f ∈ files ∧ missing.contains f.hash = true := by
    intro f
    rw [(sortFilesBySize_perm (uploadSet missing files)).mem_iff]
    simp [uploadSet, List.mem_filter]
  refine ⟨hmem, fun f1 f2 h1 h2 hh => ?_, fun b => ?_⟩
  · rw [hmem, hmem, hh]
    simp [h1, h2]
  · simp [bucketPayload, List.map_map]

theorem claim_C10_dedup_witness :
    (⟨"x", "ct", 1, "h"⟩ : FileContainer) ∈ [(⟨"x", "ct", 1, "h"⟩ : FileContainer), ⟨"y", "ct", 2, "h"⟩]
    ∧ (⟨"y", "ct", 2, "h"⟩ : FileContainer) ∈ [(⟨"x", "ct", 1, "h"⟩ : FileContainer), ⟨"y", "ct", 2, "h"⟩]
    ∧ (FileContainer.hash ⟨"x", "ct", 1, "h"⟩ = FileContainer.hash ⟨"y", "ct", 2, "h"⟩)
    ∧ ((⟨"x", "ct", 1, "h"⟩ : FileContainer)
          ∈ sortFilesBySize (uploadSet ["h"] [⟨"x", "ct", 1, "h"⟩, ⟨"y", "ct", 2, "h"⟩])
        ↔ (⟨"y", "ct", 2, "h"⟩ : FileContainer)
          ∈ sortFilesBySize (uploadSet ["h"] [⟨"x", "ct", 1, "h"⟩, ⟨"y", "ct", 2, "h"⟩])) :=
  ⟨by decide, by decide, by decide,
    (claim_C10_dedup ["h"] [⟨"x", "ct", 1, "h"⟩, ⟨"y", "ct", 2, "h"⟩]).2.1
      ⟨"x", "ct", 1, "h"⟩ ⟨"y", "ct", 2, "h"⟩ (by decide) (by decide) (by decide)⟩

/-! ## C4: upload retry with linear backoff -/

/-- Unfolding: a successful attempt ends the chain with no retry events. -/
theorem doUploadAux_ok (results : Nat → AttemptResult) (remaining attempts : Nat)
    (h : results attempts = .ok) :
    doUploadAux results remaining attempts = ([], none) := by
  cases remaining with
  | zero => rw [doUploadAux, h]
  | succ rem => rw [doUploadAux, h]

/-- Unfolding: a failure with no retry allowance left propagates the error. -/
theorem doUploadAux_err_zero (results : Nat → AttemptResult) (attempts : Nat) (e : ErrInfo)
    (h : results attempts = .err e) :
    doUploadAux results 0 attempts = ([], some e) := by
  rw [doUploadAux, h]

/-- Unfolding: a failure with allowance left waits `attempts × 1000` ms,
refreshes the JWT iff the code is 8000013, and recurses. -/
theorem doUploadAux_err_succ (results : Nat → AttemptResult) (rem attempts : Nat) (e : ErrInfo)
    (h : results attempts = .err e) :
    doUploadAux results (rem + 1) attempts
      = ({ waitMs := attempts * 1000, refreshedJwt := e.code == 8000013 }
            :: (doUploadAux results rem (attempts + 1)).1,
          (doUploadAux results rem (attempts + 1)).2) := by
  rw [doUploadAux, h]

/-- Behaviour of the whole `doUpload` retry chain, by induction on the
remaining retry allowance. -/
theorem doUploadAux_spec (results : Nat → AttemptResult) :
    ∀ remaining attempts,
      (doUploadAux results remaining attempts).1.length ≤ remaining
      ∧ (doUploadAux results remaining attempts).1.map (fun ev => ev.waitMs)
          = (List.range (doUploadAux results remaining attempts).1.length).map
              (fun i => (attempts + i) * 1000)
      ∧ (doUploadAux results remaining attempts).1.map (fun ev => ev.refreshedJwt)
          = (List.range (doUploadAux results remaining attempts).1.length).map
              (fun i => isExpiry (results (attempts + i)))
      ∧ (∀ e, (doUploadAux results remaining attempts).2 = some e →
          (doUploadAux results remaining attempts).1.length = remaining
          ∧ results (attempts + remaining) = .err e
          ∧ ∀ i, i ≤ remaining → (results (attempts + i)).isErr = true)
      ∧ ((∀ i, i ≤ remaining → (results (attempts + i)).isErr = true) →
          (doUploadAux results remaining attempts).2.isSome = true) := by
  intro remaining
  induction remaining with
  | zero =>
    intro attempts
    cases hres : results attempts with
    | ok =>
      rw [doUploadAux_ok results 0 attempts hres]
      refine ⟨by simp, by simp, by simp, by simp, fun hall => ?_⟩
      have h0 := hall 0 (Nat.le_refl 0)
      rw [Nat.add_zero, hres] at h0
      simp [AttemptResult.isErr] at h0
    | err e =>
      rw [doUploadAux_err_zero results attempts e hres]
      refine ⟨by simp, by simp, by simp, fun e2 he2 => ?_, by simp⟩
      simp only [Option.some.injEq] at he2
      subst he2
      refine ⟨rfl, by rw [Nat.add_zero]; exact hres, fun i hi => ?_⟩
      interval_cases i
      rw [Nat.add_zero, hres]
      rfl
  | succ rem ih =>
    intro attempts
    obtain ⟨ihlen, ihwait, ihref, iherr, ihall⟩ := ih (attempts + 1)
    cases hres : results attempts with
    | ok =>
      rw [doUploadAux_ok results (rem + 1) attempts hres]
      refine ⟨by simp, by simp, by simp, by simp, fun hall => ?_⟩
      have h0 := hall 0 (Nat.zero_le _)
      rw [Nat.add_zero, hres] at h0
      simp [AttemptResult.isErr] at h0
    | err e =>
      rw [doUploadAux_err_succ results rem attempts e hres]
      refine ⟨?_, ?_, ?_, fun e2 he2 => ?_, fun hall => ?_⟩
      · simpa using Nat.succ_le_succ ihlen
      · simp only [List.map_cons, List.length_cons, List.range_succ_eq_map,
          List.map_map, ihwait]
        refine congrArg₂ (fun a l => a :: l) (by simp) ?_
        refine List.map_congr_left fun i _ => ?_
        simp only [Function.comp_apply]
        omega
      · simp only [List.map_cons, List.length_cons, List.range_succ_eq_map,
          List.map_map, ihref]
        refine congrArg₂ (fun a l => a :: l) (by simp [isExpiry, hres]) ?_
        refine List.map_congr_left fun i _ => ?_
        simp only [Function.comp_apply]
        exact congrArg (fun n => isExpiry (results n)) (by omega)
      · obtain ⟨hlen, hlast, hallerr⟩ := iherr e2 he2
        refine ⟨by simpa using hlen,
          by rw [show attempts + (rem + 1) = attempts + 1 + rem by omega]; exact hlast,
          fun i hi => ?_⟩
        match i with
        | 0 => rw [Nat.add_zero, hres]; rfl
        | j + 1 =>
          have hj := hallerr j (by omega)
          rw [show attempts + (j + 1) = attempts + 1 + j by omega]
          exact hj
      · refine ihall fun i hi => ?_
        have hi1 := hall (i + 1) (by omega)
        rw [show attempts + 1 + i = attempts + (i + 1) by omega]
        exact hi1

/-- C4: a failed batch upload is retried up to the fixed maximum attempt
count with linear backoff — the i-th retry waits `i × 1000` ms, so the very
first retry waits zero — the shared credential is re-fetched before a retry
exactly when the failure's code is 8000013, and a batch whose attempts all
fail propagates the error of its last attempt. -/
theorem claim_C4_retry (results : Nat → AttemptResult) (maxAttempts : Nat) :
    (doUpload results maxAttempts).1.length ≤ maxAttempts
    ∧ (doUpload results maxAttempts).1.map (fun ev => ev.waitMs)
        = (List.range (doUpload results maxAttempts).1.length).map (fun i => i * 1000)
    ∧ (doUpload results maxAttempts).1.map (fun ev => ev.refreshedJwt)
        = (List.range (doUpload results maxAttempts).1.length).map
            (fun i => isExpiry (results i))
    ∧ (∀ e, (doUpload results maxAttempts).2 = some e →
        (doUpload results maxAttempts).1.length = maxAttempts
        ∧ results maxAttempts = .err e
        ∧ ∀ i, i ≤ maxAttempts → (results i).isErr = true)
    ∧ ((∀ i, i ≤ maxAttempts → (results i).isErr = true) →
        (doUpload results maxAttempts).2.isSome = true) := by
  obtain ⟨h1, h2, h3, h4, h5⟩ := doUploadAux_spec results maxAttempts 0
  exact ⟨h1, by simpa using h2, by simpa using h3,
    fun e he => by simpa using h4 e he, fun hall => h5 (by simpa using hall)⟩

theorem claim_C4_retry_witness :
    ((doUpload (fun _ => .err ⟨8000013⟩) 2).2 = some ⟨8000013⟩)
    ∧ ((doUpload (fun _ => .err ⟨8000013⟩) 2).1.length = 2
        ∧ (fun _ => AttemptResult.err ⟨8000013⟩) 2 = .err ⟨8000013⟩
        ∧ ∀ i, i ≤ 2 → ((fun _ => AttemptResult.err (⟨8000013⟩ : ErrInfo)) i).isErr = true)
    ∧ (doUpload (fun _ => .err ⟨8000013⟩) 2).1
        = [⟨0, true⟩, ⟨1000, true⟩] :=
  ⟨by decide,
    (claim_C4_retry (fun _ => .err ⟨8000013⟩) 2).2.2.2.1 ⟨8000013⟩ (by decide),
    by decide⟩

/-! ## C7: the finalizer retries once and never fails the run -/

/-- C7: `doUpsertHashes` makes at most two commit calls — exactly one on
success, and on failure exactly one retry after a fixed 1000 ms wait with a
credential refresh iff the error code is 8000013, propagating the second
outcome; the run's result never depends on the commit outcome, and when the
pre-commit stages succeed the run returns the full manifest with the warning
surfaced exactly when both commit attempts failed. -/
theorem claim_C7_upsert (r : Nat → Except ErrInfo Unit) :
    (doUpsertHashes r).calls ≤ 2
    ∧ (r 0 = .ok () → doUpsertHashes r
        = { calls := 1, refreshedJwt := false, waitMs := 0, outcome := .ok () })
    ∧ (∀ e, r 0 = .error e → doUpsertHashes r
        = { calls := 2, refreshedJwt := e.code == 8000013, waitMs := 1000, outcome := r 1 })
    ∧ (∀ (env : Env) (root : List String) (fs : List FSEntry) u1 u2,
        (runUpload { env with upsertResult := u1 } root fs).result
          = (runUpload { env with upsertResult := u2 } root fs).result)
    ∧ (∀ (env : Env) (fm : FileMap), ¬ fm.length > 20000 →
        (runBucketsAux env.uploadResult env.maxAttempts
            (planBuckets env.maxBucketSize env.maxBucketFileCount env.concurrency
              (sortFilesBySize (uploadSet env.missing (fm.map (fun p => p.2))))) 0).2 = none →
        (runUploadCore env (.ok fm)).result = .ok (manifestOf fm)
        ∧ ((runUploadCore env (.ok fm)).upsertWarned = true ↔
            exceptIsErr (env.upsertResult 0) = true ∧ exceptIsErr (env.upsertResult 1) = true)) := by
  refine ⟨?_, ?_, ?_, ?_, ?_⟩
  · unfold doUpsertHashes
    cases r 0 <;> simp
  · intro h0
    unfold doUpsertHashes
    rw [h0]
  · intro e h0
    unfold doUpsertHashes
    rw [h0]
  · intro env root fs u1 u2
    simp only [runUpload, runUploadCore]
    cases walk env.mimeType env.blakeHex root fs with
    | error e => rfl
    | ok fm =>
      by_cases h : fm.length > 20000
      · simp only [if_pos h]
      · simp only [if_neg h]
        split <;> rfl
  · intro env fm hlen hbres
    constructor
    · simp only [runUploadCore, if_neg hlen]
      rw [hbres]
    · simp only [runUploadCore, if_neg hlen]
      rw [hbres]
      unfold doUpsertHashes
      cases h0 : env.upsertResult 0 with
      | ok u => simp [exceptIsErr, h0]
      | error e =>
        cases h1 : env.upsertResult 1 with
        | ok u => simp [exceptIsErr, h0, h1]
        | error e2 => simp [exceptIsErr, h0, h1]

theorem claim_C7_upsert_witness :
    (¬ ([("a.txt", fcW)] : FileMap).length > 20000)
    ∧ ((runBucketsAux envW.uploadResult envW.maxAttempts
          (planBuckets envW.maxBucketSize envW.maxBucketFileCount envW.concurrency
            (sortFilesBySize (uploadSet envW.missing
              (([("a.txt", fcW)] : FileMap).map (fun p => p.2))))) 0).2 = none)
    ∧ (runUploadCore envW (.ok [("a.txt", fcW)])).result = .ok (manifestOf [("a.txt", fcW)])
    ∧ ((runUploadCore envW (.ok [("a.txt", fcW)])).upsertWarned = true ↔
        exceptIsErr (envW.upsertResult 0) = true ∧ exceptIsErr (envW.upsertResult 1) = true) :=
  ⟨by decide, by decide,
    ((claim_C7_upsert envW.upsertResult).2.2.2.2 envW [("a.txt", fcW)]
      (by decide) (by decide)).1,
    ((claim_C7_upsert envW.upsertResult).2.2.2.2 envW [("a.txt", fcW)]
      (by decide) (by decide)).2⟩

/-! ## C6: pre-flight limits with exact boundaries, before any network call -/

/-- C6: the 20,000-file ceiling is checked on the walk result before any
network call (the returned trace of network calls is empty on that path, as
it is when the walk itself fails on an oversized file), and the per-file
ceiling sits exactly at 25 MiB: a 25 MiB file is indexed, one byte more
fails the walk fatally with the offending path and size. -/
theorem claim_C6_preflight :
    (∀ env fm, fm.length > 20000 →
      runUploadCore env (.ok fm)
        = { result := .error .tooManyFiles, netCalls := [], upsertWarned := false })
    ∧ (∀ env root fs e, walk env.mimeType env.blakeHex root fs = .error e →
      runUpload env root fs
        = { result := .error (.walkFailed e), netCalls := [], upsertWarned := false })
    ∧ (∀ mt bh fm r name content, content.length = 25 * 1024 * 1024 →
      IGNORE_LIST.contains name = false →
      walkEntries mt bh fm [r] 0 [.file name content]
        = .ok (mapSet fm name
            { content := base64Encode content
              contentType := (mt name).getD "application/octet-stream"
              sizeInBytes := content.length
              hash := (bh (base64Encode content ++ (extname (basename name)).drop 1)).take 32 }))
    ∧ (∀ mt bh fm r name content, content.length = 25 * 1024 * 1024 + 1 →
      IGNORE_LIST.contains name = false →
      walkEntries mt bh fm [r] 0 [.file name content]
        = .error (.tooLarge name (25 * 1024 * 1024 + 1))) := by
  refine ⟨fun env fm hlen => ?_, fun env root fs e hw => ?_,
    fun mt bh fm r name content hlen hig => ?_, fun mt bh fm r name content hlen hig => ?_⟩
  · simp only [runUploadCore, if_pos hlen]
  · simp only [runUpload]
    rw [hw]
    rfl
  · simp only [walkEntries, hig, Bool.false_eq_true, if_false, walkFileStep]
    rw [hlen]
    simp [walkEntries]
  · simp only [walkEntries, hig, Bool.false_eq_true, if_false, walkFileStep]
    rw [hlen]
    simp [walkEntries]

theorem claim_C6_preflight_witness :
    (((List.range 20001).map (fun i => (toString i, fcW)) : FileMap).length > 20000
      ∧ runUploadCore envW (.ok ((List.range 20001).map (fun i => (toString i, fcW))))
          = { result := .error .tooManyFiles, netCalls := [], upsertWarned := false })
    ∧ (walk envW.mimeType envW.blakeHex ["dist"] [.symlink "ln" none]
          = .error (.brokenLink ["dist", "ln"])
      ∧ runUpload envW ["dist"] [.symlink "ln" none]
          = { result := .error (.walkFailed (.brokenLink ["dist", "ln"])),
              netCalls := [], upsertWarned := false })
    ∧ ((List.replicate (25 * 1024 * 1024) 0).length = 25 * 1024 * 1024
      ∧ (walkEntries (fun _ => none) (fun s => s) [] ["dist"] 0
            [.file "big.bin" (List.replicate (25 * 1024 * 1024) 0)]).isOk = true)
    ∧ ((List.replicate (25 * 1024 * 1024 + 1) 0).length = 25 * 1024 * 1024 + 1
      ∧ walkEntries (fun _ => none) (fun s => s) [] ["dist"] 0
            [.file "big.bin" (List.replicate (25 * 1024 * 1024 + 1) 0)]
          = .error (.tooLarge "big.bin" (25 * 1024 * 1024 + 1))) := by
  have hlen20001 :
      (((List.range 20001).map (fun i => (toString i, fcW)) : FileMap)).length > 20000 := by
    rw [List.length_map, List.length_range]
    decide
  have hw : walk envW.mimeType envW.blakeHex ["dist"] [.symlink "ln" none]
      = .error (.brokenLink ["dist", "ln"]) := by
    simp [walk, walkEntries, envW]
  refine ⟨⟨hlen20001, claim_C6_preflight.1 envW _ hlen20001⟩,
    ⟨hw, claim_C6_preflight.2.1 envW ["dist"] [.symlink "ln" none] _ hw⟩,
    ⟨List.length_replicate _ _, ?_⟩,
    ⟨List.length_replicate _ _,
      claim_C6_preflight.2.2.2 (fun _ => none) (fun s => s) [] "dist" "big.bin"
        (List.replicate (25 * 1024 * 1024 + 1) 0) (List.length_replicate _ _) (by decide)⟩⟩
  rw [claim_C6_preflight.2.2.1 (fun _ => none) (fun s => s) [] "dist" "big.bin"
    (List.replicate (25 * 1024 * 1024) 0) (List.length_replicate _ _) (by decide)]
  rfl

/-! ## C8: symbolic links are not skipped — `stat` follows them -/

/-- C8 (against the claim, evaluating the code): the walker indexes the
target of a symbolic link.  The source guards with
`filestat.isSymbolicLink()`, but `filestat` comes from `fs.promises.stat`,
which follows links, so the guard never fires: a root containing only a
symlink to a two-byte file produces an index entry for it (keyed by the
link's name), where the claim requires the symlink to contribute nothing. -/
theorem claim_C8_symlink_followed :
    walk (fun _ => none) (fun s => s) ["dist"]
        [FSEntry.symlink "ln" (some (.file "t.txt" [104, 105]))]
      = .ok [("ln", ⟨"aGk=", "application/octet-stream", 2, "aGk="⟩)]
    ∧ walk (fun _ => none) (fun s => s) ["dist"]
        [FSEntry.symlink "ln" (some (.file "t.txt" [104, 105]))] ≠ .ok [] := by
  constructor
  · simp [walk, walkEntries, walkFileStep, IGNORE_LIST, mapSet, base64Encode, b64char,
      base64Chars, basename, extname, lastDotIdx]
    decide
  · intro h
    simp [walk, walkEntries, walkFileStep, IGNORE_LIST, mapSet, resolvedFileContent] at h

/-! ## C9: logicalPath and multi-segment root directories -/

/-- C9 (counterexample): for the two-segment root `out/dist`, a file at
`out/dist/sub/f.txt` is keyed `dist/sub/f.txt` — the walker drops only the
first segment of the joined path (`filepath.split(sep).slice(1)`), not the
whole root — whereas the claim requires the key `sub/f.txt`, the path
relative to the root. -/
theorem claim_C9_counterexample :
    walk (fun _ => none) (fun s => s) ["out", "dist"]
        [FSEntry.dir "sub" [.file "f.txt" [97]]]
      = .ok [("dist/sub/f.txt", ⟨"YQ==", "application/octet-stream", 1, "YQ==txt"⟩)]
    ∧ ("dist/sub/f.txt" : String) ≠ "sub/f.txt" := by
  constructor
  · simp [walk, walkEntries, walkFileStep, IGNORE_LIST, mapSet, base64Encode, b64char,
      base64Chars, basename, extname, lastDotIdx]
    decide
  · decide

theorem intercalate_single (a : String) : String.intercalate "/" [a] = a := rfl

/-- The per-file step drops exactly the first segment of the joined path, so
over a root of the single segment `r` it produces the spec's relative key. -/
theorem walkFileStep_eq_spec (mt : String → Option String) (bh : String → String)
    (fm : FileMap) (r : String) (rel : List String)
    (fname : String) (content : List Nat) :
    walkFileStep mt bh fm (r :: rel) rel.length fname content
      = specWalkFileStep mt bh fm rel fname content := by
  cases rel with
  | nil => simp [walkFileStep, specWalkFileStep, intercalate_single]
  | cons a as => simp [walkFileStep, specWalkFileStep]

/-- Over a root consisting of one path segment, the walker computes exactly
the spec's relative keys: from directory `r :: rel` at depth `rel.length`,
`walkEntries` coincides with the spec-side walk at relative path `rel`. -/
theorem walkEntries_eq_spec (mt : String → Option String) (bh : String → String) :
    ∀ (fm : FileMap) (dirPath : List String) (depth : Nat) (es : List FSEntry),
      ∀ (r : String) (rel : List String), dirPath = r :: rel → depth = rel.length →
      walkEntries mt bh fm dirPath depth es = specWalkEntries mt bh r fm rel es := by
  intro fm dirPath depth es
  induction fm, dirPath, depth, es using walkEntries.induct mt bh with
  | case1 fm dp d =>
    rintro r rel rfl rfl
    simp only [walkEntries, specWalkEntries]
  | case2 fm dp d fname rest =>
    rintro r rel rfl rfl
    simp only [walkEntries, specWalkEntries]
  | case3 fm dp d fname sub rest hig ih =>
    rintro r rel rfl rfl
    simp only [walkEntries, specWalkEntries, if_pos hig]
    exact ih r rel rfl rfl
  | case4 fm dp d fname sub rest hig err herr ih =>
    rintro r rel rfl rfl
    have hspec := (ih r (rel ++ [fname]) rfl (by simp)).symm.trans herr
    simp only [walkEntries, specWalkEntries, if_neg hig]
    rw [herr, hspec]
  | case5 fm dp d fname sub rest hig fm2 hok ih1 ih2 =>
    rintro r rel rfl rfl
    have hspec := (ih1 r (rel ++ [fname]) rfl (by simp)).symm.trans hok
    simp only [walkEntries, specWalkEntries, if_neg hig]
    rw [hok, hspec]
    exact ih2 r rel rfl rfl
  | case6 fm dp d fname name sub rest hig ih =>
    rintro r rel rfl rfl
    simp only [walkEntries, specWalkEntries, if_pos hig]
    exact ih r rel rfl rfl
  | case7 fm dp d fname name sub rest hig err herr ih =>
    rintro r rel rfl rfl
    have hspec := (ih r (rel ++ [fname]) rfl (by simp)).symm.trans herr
    simp only [walkEntries, specWalkEntries, if_neg hig]
    rw [herr, hspec]
  | case8 fm dp d fname name sub rest hig fm2 hok ih1 ih2 =>
    rintro r rel rfl rfl
    have hspec := (ih1 r (rel ++ [fname]) rfl (by simp)).symm.trans hok
    simp only [walkEntries, specWalkEntries, if_neg hig]
    rw [hok, hspec]
    exact ih2 r rel rfl rfl
  | case9 fm dp d fname content rest hig ih =>
    rintro r rel rfl rfl
    simp only [walkEntries, specWalkEntries, if_pos hig]
    exact ih r rel rfl rfl
  | case10 fm dp d fname content rest hig err herr =>
    rintro r rel rfl rfl
    simp only [walkEntries, specWalkEntries, if_neg hig]
    rw [← walkFileStep_eq_spec mt bh fm r rel fname content, herr]
  | case11 fm dp d fname content rest hig fm2 hok ih =>
    rintro r rel rfl rfl
    simp only [walkEntries, specWalkEntries, if_neg hig]
    rw [← walkFileStep_eq_spec mt bh fm r rel fname content, hok]
    exact ih r rel rfl rfl
  | case12 fm dp d fname tgt rest hnd hig ih =>
    rintro r rel rfl rfl
    simp only [walkEntries, specWalkEntries, if_pos hig]
    exact ih r rel rfl rfl
  | case13 fm dp d fname tgt rest hnd hig err herr =>
    rintro r rel rfl rfl
    simp only [walkEntries, specWalkEntries, if_neg hig]
    rw [← walkFileStep_eq_spec mt bh fm r rel fname (resolvedFileContent tgt), herr]
  | case14 fm dp d fname tgt rest hnd hig fm2 hok ih =>
    rintro r rel rfl rfl
    simp only [walkEntries, specWalkEntries, if_neg hig]
    rw [← walkFileStep_eq_spec mt bh fm r rel fname (resolvedFileContent tgt), hok]
    exact ih r rel rfl rfl

/-- Key uniqueness: `Map.set` preserves distinctness of keys — replacing an
existing key keeps the key list unchanged, appending requires absence. -/
theorem mapSet_keys_nodup (fm : FileMap) (k : String) (v : FileContainer)
    (h : (fm.map (fun p => p.1)).Nodup) :
    ((mapSet fm k v).map (fun p => p.1)).Nodup := by
  unfold mapSet
  split
  · have heq : (fm.map (fun p => if p.1 == k then (k, v) else p)).map (fun p => p.1)
        = fm.map (fun p => p.1) := by
      rw [List.map_map]
      refine List.map_congr_left fun p _ => ?_
      by_cases hp : p.1 = k <;> simp [hp]
    rw [heq]
    exact h
  · rename_i hany
    rw [List.map_append, List.nodup_append]
    refine ⟨h, by simp, ?_⟩
    intro a ha hb
    simp only [List.map_cons, List.map_nil, List.mem_singleton] at hb
    subst hb
    rw [List.mem_map] at ha
    obtain ⟨p, hp, hpk⟩ := ha
    exact hany (by rw [List.any_eq_true]; exact ⟨p, hp, by simp [hpk]⟩)

theorem walkFileStep_keys_nodup (mt : String → Option String) (bh : String → String)
    (fm : FileMap) (dirPath : List String) (depth : Nat) (fname : String)
    (content : List Nat) (fm2 : FileMap)
    (h : walkFileStep mt bh fm dirPath depth fname content = .ok fm2)
    (hnd : (fm.map (fun p => p.1)).Nodup) : (fm2.map (fun p => p.1)).Nodup := by
  simp only [walkFileStep] at h
  split at h
  · simp at h
  · simp only [Except.ok.injEq] at h
    subst h
    exact mapSet_keys_nodup _ _ _ hnd

/-- The walker never produces duplicate keys: its `fileMap` is a JS `Map`. -/
theorem walkEntries_keys_nodup (mt : String → Option String) (bh : String → String) :
    ∀ (fm : FileMap) (dirPath : List String) (depth : Nat) (es : List FSEntry) (fm2 : FileMap),
      walkEntries mt bh fm dirPath depth es = .ok fm2 →
      (fm.map (fun p => p.1)).Nodup → (fm2.map (fun p => p.1)).Nodup := by
  intro fm dirPath depth es
  induction fm, dirPath, depth, es using walkEntries.induct mt bh with
  | case1 fm dp d =>
    intro fm2 h hnd
    simp only [walkEntries, Except.ok.injEq] at h
    subst h
    exact hnd
  | case2 fm dp d fname rest =>
    intro fm2 h hnd
    simp only [walkEntries] at h
    exact Except.noConfusion h
  | case3 fm dp d fname sub rest hig ih =>
    intro fm2 h hnd
    simp only [walkEntries, if_pos hig] at h
    exact ih fm2 h hnd
  | case4 fm dp d fname sub rest hig err herr ih =>
    intro fm2 h hnd
    simp only [walkEntries, if_neg hig, herr] at h
    exact Except.noConfusion h
  | case5 fm dp d fname sub rest hig fmm hok ih1 ih2 =>
    intro fm2 h hnd
    simp only [walkEntries, if_neg hig, hok] at h
    exact ih2 fm2 h (ih1 fmm hok hnd)
  | case6 fm dp d fname name sub rest hig ih =>
    intro fm2 h hnd
    simp only [walkEntries, if_pos hig] at h
    exact ih fm2 h hnd
  | case7 fm dp d fname name sub rest hig err herr ih =>
    intro fm2 h hnd
    simp only [walkEntries, if_neg hig, herr] at h
    exact Except.noConfusion h
  | case8 fm dp d fname name sub rest hig fmm hok ih1 ih2 =>
    intro fm2 h hnd
    simp only [walkEntries, if_neg hig, hok] at h
    exact ih2 fm2 h (ih1 fmm hok hnd)
  | case9 fm dp d fname content rest hig ih =>
    intro fm2 h hnd
    simp only [walkEntries, if_pos hig] at h
    exact ih fm2 h hnd
  | case10 fm dp d fname content rest hig err herr =>
    intro fm2 h hnd
    simp only [walkEntries, if_neg hig, herr] at h
    exact Except.noConfusion h
  | case11 fm dp d fname content rest hig fmm hok ih =>
    intro fm2 h hnd
    simp only [walkEntries, if_neg hig, hok] at h
    exact ih fm2 h (walkFileStep_keys_nodup mt bh fm dp d fname content fmm hok hnd)
  | case12 fm dp d fname tgt rest hnd2 hig ih =>
    intro fm2 h hnd
    simp only [walkEntries, if_pos hig] at h
    exact ih fm2 h hnd
  | case13 fm dp d fname tgt rest hnd2 hig err herr =>
    intro fm2 h hnd
    simp only [walkEntries, if_neg hig, herr] at h
    exact Except.noConfusion h
  | case14 fm dp d fname tgt rest hnd2 hig fmm hok ih =>
    intro fm2 h hnd
    simp only [walkEntries, if_neg hig, hok] at h
    exact ih fm2 h
      (walkFileStep_keys_nodup mt bh fm dp d fname (resolvedFileContent tgt) fmm hok hnd)

/-- C9 (amended): a regular file's key in the deployment index is the joined
path with only its first segment removed, which equals the file's POSIX path
relative to the root whenever the root directory argument is a single path
segment (for multi-segment roots the key keeps the root's trailing
segments); keys are unique within the index in all cases.  Formally: over a
single-segment root the walker coincides with the spec-side relative-path
walk, and any successful walk yields pairwise-distinct keys. -/
theorem claim_C9_amended (mt : String → Option String) (bh : String → String)
    (r : String) (es : List FSEntry) :
    walk mt bh [r] es = specWalkEntries mt bh r [] [] es
    ∧ ∀ fm, walk mt bh [r] es = .ok fm → (fm.map (fun p => p.1)).Nodup := by
  constructor
  · exact walkEntries_eq_spec mt bh [] [r] 0 es r [] rfl rfl
  · intro fm hw
    exact walkEntries_keys_nodup mt bh [] [r] 0 es fm hw (by simp)

theorem claim_C9_amended_witness :
    walk (fun _ => none) (fun s => s) ["dist"] [FSEntry.dir "sub" [.file "f.txt" [97]]]
      = .ok [("sub/f.txt", ⟨"YQ==", "application/octet-stream", 1, "YQ==txt"⟩)]
    ∧ (([("sub/f.txt",
          (⟨"YQ==", "application/octet-stream", 1, "YQ==txt"⟩ : FileContainer))] : FileMap).map
        (fun p => p.1)).Nodup := by
  have hev : walk (fun _ => none) (fun s => s) ["dist"] [FSEntry.dir "sub" [.file "f.txt" [97]]]
      = .ok [("sub/f.txt", ⟨"YQ==", "application/octet-stream", 1, "YQ==txt"⟩)] := by
    simp [walk, walkEntries, walkFileStep, IGNORE_LIST, mapSet, base64Encode, b64char,
      base64Chars, basename, extname, lastDotIdx]
    decide
  exact ⟨hev,
    (claim_C9_amended (fun _ => none) (fun s => s) "dist" [FSEntry.dir "sub" [.file "f.txt" [97]]]).2
      _ hev⟩

/-! ## C1: the batch plan is a partition honoring both ceilings -/

theorem initBuckets_inv (conc : Nat) (maxSize : Int) (maxCount : Nat) (hms : 0 ≤ maxSize) :
    ∀ b ∈ initBuckets conc maxSize, bucketInv maxSize maxCount b := by
  intro b hb
  have hbeq : b = { files := [], remainingSize := maxSize } :=
    List.eq_of_mem_replicate (by simpa [initBuckets] using hb)
  subst hbeq
  exact ⟨by simp, by simpa using hms, by simp⟩

theorem findSlot_spec (maxCount : Nat) (bs : List Bucket) (off : Nat) (f : FileContainer)
    (idx : Nat) (h : findSlot maxCount bs off f = some idx) :
    idx < bs.length ∧ bucketFits maxCount (bs.getD idx default) f = true := by
  simp only [findSlot, Option.map_eq_some'] at h
  obtain ⟨i, hfind, hidx⟩ := h
  have hmem := List.mem_of_find?_eq_some hfind
  have hpred := List.find?_some hfind
  rw [List.mem_range] at hmem
  subst hidx
  exact ⟨Nat.mod_lt _ (by omega), hpred⟩

theorem insertFile_inv (maxSize : Int) (maxCount : Nat) (bs : List Bucket) (off : Nat)
    (f : FileContainer) (hinv : ∀ b ∈ bs, bucketInv maxSize maxCount b)
    (hsz : (f.sizeInBytes : Int) ≤ maxSize) (hmc : 1 ≤ maxCount) :
    ∀ b ∈ insertFile maxSize maxCount bs off f, bucketInv maxSize maxCount b := by
  intro b hb
  rw [insertFile] at hb
  split at hb
  · rename_i idx hfind
    obtain ⟨hlt, hfits⟩ := findSlot_spec maxCount bs off f idx hfind
    rcases List.mem_or_eq_of_mem_set hb with hold | hnew
    · exact hinv b hold
    · subst hnew
      have holdmem : bs.getD idx default ∈ bs := by
        rw [List.getD_eq_getElem bs default hlt]
        exact List.getElem_mem hlt
      obtain ⟨hrem, hpos, hcount⟩ := hinv _ holdmem
      simp only [bucketFits, Bool.and_eq_true, decide_eq_true_eq] at hfits
      refine ⟨?_, ?_, ?_⟩
      · simp only [addToBucket, List.map_append, List.sum_append, List.map_cons,
          List.map_nil, List.sum_cons, List.sum_nil, Nat.cast_add, hrem]
        ring
      · simp only [addToBucket]
        rw [hrem] at hfits ⊢
        omega
      · simp only [addToBucket, List.length_append, List.length_cons, List.length_nil]
        omega
  · rcases List.mem_append.mp hb with hold | hnew
    · exact hinv b hold
    · rw [List.mem_singleton] at hnew
      subst hnew
      refine ⟨by simp, by simpa using hsz, by simpa using hmc⟩

theorem bucketsFiles_append (bs : List Bucket) (b : Bucket) :
    bucketsFiles (bs ++ [b]) = bucketsFiles bs ++ b.files := by
  induction bs with
  | nil => simp [bucketsFiles]
  | cons b0 rest ih => simp [bucketsFiles, ih]

theorem bucketsFiles_set_perm (bs : List Bucket) (idx : Nat) (f : FileContainer)
    (hlt : idx < bs.length) :
    List.Perm (bucketsFiles (bs.set idx (addToBucket (bs.getD idx default) f)))
      (f :: bucketsFiles bs) := by
  induction bs generalizing idx with
  | nil => simp at hlt
  | cons b0 rest ih =>
    cases idx with
    | zero =>
      simp only [List.set_cons_zero, List.getD_cons_zero, bucketsFiles, addToBucket]
      rw [List.append_assoc]
      exact List.perm_middle
    | succ j =>
      simp only [List.set_cons_succ, List.getD_cons_succ, bucketsFiles]
      have hj : j < rest.length := by simpa using hlt
      exact (List.Perm.append_left b0.files (ih j hj)).trans List.perm_middle

theorem insertFile_perm (maxSize : Int) (maxCount : Nat) (bs : List Bucket) (off : Nat)
    (f : FileContainer) :
    List.Perm (bucketsFiles (insertFile maxSize maxCount bs off f))
      (f :: bucketsFiles bs) := by
  rw [insertFile]
  split
  · rename_i idx hfind
    exact bucketsFiles_set_perm bs idx f (findSlot_spec maxCount bs off f idx hfind).1
  · rw [bucketsFiles_append]
    exact (@List.perm_middle _ f (bucketsFiles bs) []).trans (by simp)

theorem packFiles_spec (maxSize : Int) (maxCount : Nat) (hmc : 1 ≤ maxCount) :
    ∀ (files : List FileContainer) (bs : List Bucket) (off : Nat),
      (∀ f ∈ files, (f.sizeInBytes : Int) ≤ maxSize) →
      (∀ b ∈ bs, bucketInv maxSize maxCount b) →
      (∀ b ∈ packFiles maxSize maxCount files bs off, bucketInv maxSize maxCount b)
      ∧ List.Perm (bucketsFiles (packFiles maxSize maxCount files bs off))
          (bucketsFiles bs ++ files) := by
  intro files
  induction files with
  | nil =>
    intro bs off _ hinv
    rw [packFiles]
    exact ⟨hinv, by simp⟩
  | cons f rest ih =>
    intro bs off hsz hinv
    rw [packFiles]
    have hf : (f.sizeInBytes : Int) ≤ maxSize := hsz f (List.mem_cons_self f rest)
    have hinv2 := insertFile_inv maxSize maxCount bs off f hinv hf hmc
    obtain ⟨ih1, ih2⟩ := ih (insertFile maxSize maxCount bs off f) (off + 1)
      (fun g hg => hsz g (List.mem_cons_of_mem f hg)) hinv2
    refine ⟨ih1, ?_⟩
    exact ih2.trans
      (((insertFile_perm maxSize maxCount bs off f).append_right rest).trans
        List.perm_middle.symm)

theorem bucketsFiles_initBuckets (conc : Nat) (maxSize : Int) :
    bucketsFiles (initBuckets conc maxSize) = [] := by
  induction conc with
  | zero => rfl
  | succ n ih => simpa [initBuckets, List.replicate_succ, bucketsFiles] using ih

/-- C1: the batch planner partitions the upload set — the concatenation of
the buckets' files is a permutation of the upload set, so every file lands
in exactly one bucket (with multiplicity) — and every bucket respects both
ceilings, for every size distribution in which each file is within the
indexer's 25 MiB per-file maximum.  The ceilings come from `./constants`
(outside the provided sources) and are parameters constrained as the spec
requires: the byte ceiling is at least the per-file maximum and the count
ceiling is positive. -/
theorem claim_C1_planner (maxSize : Int) (maxCount conc : Nat)
    (missing : List String) (files : List FileContainer)
    (hbs : (25 * 1024 * 1024 : Int) ≤ maxSize) (hmc : 1 ≤ maxCount)
    (hsz : ∀ f ∈ files, f.sizeInBytes ≤ 25 * 1024 * 1024) :
    List.Perm
      (bucketsFiles (planBuckets maxSize maxCount conc
        (sortFilesBySize (uploadSet missing files))))
      (uploadSet missing files)
    ∧ ∀ b ∈ planBuckets maxSize maxCount conc (sortFilesBySize (uploadSet missing files)),
        ((b.files.map (fun f => f.sizeInBytes)).sum : Int) ≤ maxSize
        ∧ b.files.length ≤ maxCount := by
  have hms : (0 : Int) ≤ maxSize := le_trans (by norm_num) hbs
  have hsorted : ∀ f ∈ sortFilesBySize (uploadSet missing files),
      (f.sizeInBytes : Int) ≤ maxSize := by
    intro f hf
    rw [(sortFilesBySize_perm (uploadSet missing files)).mem_iff] at hf
    have hmemf : f ∈ files := List.mem_of_mem_filter hf
    have h25 : (f.sizeInBytes : Int) ≤ (25 * 1024 * 1024 : Int) := by
      exact_mod_cast hsz f hmemf
    exact le_trans h25 hbs
  obtain ⟨hinv, hperm⟩ := packFiles_spec maxSize maxCount hmc
    (sortFilesBySize (uploadSet missing files)) (initBuckets conc maxSize) 0
    hsorted (initBuckets_inv conc maxSize maxCount hms)
  constructor
  · rw [planBuckets]
    rw [bucketsFiles_initBuckets, List.nil_append] at hperm
    exact hperm.trans (sortFilesBySize_perm (uploadSet missing files))
  · intro b hb
    obtain ⟨hrem, hpos, hcount⟩ := hinv b hb
    refine ⟨?_, hcount⟩
    rw [hrem] at hpos
    omega

theorem claim_C1_planner_witness :
    ((25 * 1024 * 1024 : Int) ≤ 52428800
      ∧ (1 : Nat) ≤ 5000
      ∧ ∀ f ∈ [(⟨"a", "ct", 10, "ha"⟩ : FileContainer), ⟨"b", "ct", 10, "hb"⟩,
            ⟨"c", "ct", 100, "hc"⟩], f.sizeInBytes ≤ 25 * 1024 * 1024)
    ∧ (List.Perm
        (bucketsFiles (planBuckets 52428800 5000 3
          (sortFilesBySize (uploadSet ["ha", "hc"]
            [⟨"a", "ct", 10, "ha"⟩, ⟨"b", "ct", 10, "hb"⟩, ⟨"c", "ct", 100, "hc"⟩]))))
        (uploadSet ["ha", "hc"]
          [⟨"a", "ct", 10, "ha"⟩, ⟨"b", "ct", 10, "hb"⟩, ⟨"c", "ct", 100, "hc"⟩])
      ∧ ∀ b ∈ planBuckets 52428800 5000 3
            (sortFilesBySize (uploadSet ["ha", "hc"]
              [⟨"a", "ct", 10, "ha"⟩, ⟨"b", "ct", 10, "hb"⟩, ⟨"c", "ct", 100, "hc"⟩])),
          ((b.files.map (fun f => f.sizeInBytes)).sum : Int) ≤ 52428800
          ∧ b.files.length ≤ 5000) :=
  ⟨⟨by decide, by decide, by decide⟩,
    claim_C1_planner 52428800 5000 3 ["ha", "hc"]
      [⟨"a", "ct", 10, "ha"⟩, ⟨"b", "ct", 10, "hb"⟩, ⟨"c", "ct", 100, "hc"⟩]
      (by decide) (by decide) (by decide)⟩
